import Mathlib

/-!
Verification of the reconciliation engine of the `terraform-provider-mongodb`
repository: the per-resource lifecycle drivers (database, collection, index),
the identity codec used by `ImportState`, and the tolerant decoding of index
key documents.

The Go source is shallowly embedded: every lifecycle method becomes a pure
function from the desired/recorded records plus the outcomes of the store
commands it issues (the mongo driver and bson library are external
collaborators, so their results are inputs), to a response record that
captures the diagnostics added (`errors`, `warnings`), whether
`RemoveResource` was called (`removed`), the store commands issued, and the
state persisted by `State.Set` (`newState`).
-/

/-- Outcome of a call into the mongo driver / bson library: the Go
`(value, error)` pair. -/
inductive StoreResult (α : Type) where
  | ok (val : α)
  | err (msg : String)
deriving DecidableEq, Repr

/-- `types.String`: `none` models a null value; `tfValueString` is the
framework's `ValueString()`, which returns `""` for null. -/
abbrev TfString := Option String

def tfValueString (v : TfString) : String := v.getD ""

/- ## Identity codec

`ImportState` operates on Go strings via `strings.TrimSpace` and
`strings.SplitN`; identities are embedded as rune lists. -/

abbrev Str := List Char

/-- Go's `unicode.IsSpace`: the code points of the Unicode White_Space
property, which `strings.TrimSpace` strips from both ends. -/
def isGoSpace (c : Char) : Bool :=
  let n := c.toNat
  n == 0x09 || n == 0x0A || n == 0x0B || n == 0x0C || n == 0x0D || n == 0x20 ||
  n == 0x85 || n == 0xA0 || n == 0x1680 || (0x2000 ≤ n && n ≤ 0x200A) ||
  n == 0x2028 || n == 0x2029 || n == 0x202F || n == 0x205F || n == 0x3000

def trimLeft (s : Str) : Str := s.dropWhile isGoSpace

def trimRight (s : Str) : Str := (s.reverse.dropWhile isGoSpace).reverse

/-- Go `strings.TrimSpace`. -/
def trimSpace (s : Str) : Str := trimRight (trimLeft s)

/-- Splits off everything before the first occurrence of `sep`, together with
the remainder after it; `none` when `sep` does not occur. -/
def breakAtSep (sep : Char) : Str → Option (Str × Str)
  | [] => none
  | c :: cs =>
    if c = sep then some ([], cs)
    else (breakAtSep sep cs).map (fun p => (c :: p.1, p.2))

/-- Go `strings.SplitN s sep n` for a single-character separator and `n > 0`:
at most `n` substrings, the last one holding the unsplit remainder. -/
def splitN (sep : Char) : Nat → Str → List Str
  | 0, _ => []
  | 1, s => [s]
  | n + 2, s =>
    match breakAtSep sep s with
    | none => [s]
    | some (pre, post) => pre :: splitN sep (n + 1) post

/-- Identity built by the database driver: `plan.ID = name`. -/
def encodeDatabaseId (name : Str) : Str := name

/-- Identity built by the collection driver: `fmt.Sprintf("%s/%s", db, name)`. -/
def encodeCollectionId (db name : Str) : Str := db ++ '/' :: name

/-- Identity built by the index driver:
`fmt.Sprintf("%s/%s/%s", db, coll, name)`. -/
def encodeIndexId (db coll name : Str) : Str := db ++ '/' :: (coll ++ '/' :: name)

/-- `database.Resource.ImportState`: trims the id and only rejects an empty
result (no segment shape check at all). -/
def decodeDatabaseId (s : Str) : Option Str :=
  if trimSpace s = [] then none else some (trimSpace s)

/-- The `len(parts) != 2 || parts[0] == "" || parts[1] == ""` validation of
the collection import path. -/
def shapeTwo : List Str → Option (Str × Str)
  | [db, coll] => if db = [] ∨ coll = [] then none else some (db, coll)
  | _ => none

/-- `collection.Resource.ImportState`: trim, `SplitN(id, "/", 2)`, reject when
fewer than two parts come back or a part is empty. -/
def decodeCollectionId (s : Str) : Option (Str × Str) :=
  if trimSpace s = [] then none
  else shapeTwo (splitN '/' 2 (trimSpace s))

/-- The `len(parts) != 3` / empty-part validation of the index import path. -/
def shapeThree : List Str → Option (Str × Str × Str)
  | [db, coll, index] =>
    if db = [] ∨ coll = [] ∨ index = [] then none else some (db, coll, index)
  | _ => none

/-- `index.Resource.ImportState`: trim, `SplitN(id, "/", 3)`, reject when
fewer than three parts come back or a part is empty. -/
def decodeIndexId (s : Str) : Option (Str × Str × Str) :=
  if trimSpace s = [] then none
  else shapeThree (splitN '/' 3 (trimSpace s))

/- ## Document decoder (index key documents) -/

/-- A BSON value as classified by the `switch v := e.Value.(type)` in the
index `Read` loops. The `float64` payload is carried exactly as a rational
(doubles are dyadic rationals); `other` records the Go dynamic type name
(`%T`) and printed value (`%v`) used in the warning. -/
inductive BsonValue where
  | int32 (v : Int)
  | int64 (v : Int)
  | float64 (v : Rat)
  | other (kind : String) (rendered : String)
deriving DecidableEq, Repr

/-- An ordered BSON document, as produced by `bson.Unmarshal` into `bson.D`. -/
abbrev BsonDoc := List (String × BsonValue)

/-- Go's `int64(v)` conversion on a `float64`: truncation toward zero
(exact for directions in the `int64` range, the only values the store
returns for index key orders). -/
def float64ToInt64 (q : Rat) : Int := if 0 ≤ q then ⌊q⌋ else ⌈q⌉

/-- One decoded `keys` entry (`indexKeyModel`): both attributes are required,
so they are never null. -/
structure IndexKeyModel where
  field : String
  order : Int
deriving DecidableEq, Repr

/-- The `AddWarning("Non-numeric index key order encountered", ...)` payload:
the detail names the field (`%q`) and the encountered dynamic kind (`%T`). -/
structure KeyWarning where
  field : String
  kind : String
deriving DecidableEq, Repr

/-- The decode loop shared by `index.Resource.Read` and
`index.DataSource.Read`: int32/int64/float64 orders are coerced to `int64`
and appended; any other kind is skipped with a warning. -/
def decodeKeyOrder : BsonDoc → List IndexKeyModel × List KeyWarning
  | [] => ([], [])
  | (f, v) :: rest =>
    let tail := decodeKeyOrder rest
    match v with
    | .int32 n => (⟨f, n⟩ :: tail.1, tail.2)
    | .int64 n => (⟨f, n⟩ :: tail.1, tail.2)
    | .float64 q => (⟨f, float64ToInt64 q⟩ :: tail.1, tail.2)
    | .other kind _ => (tail.1, ⟨f, kind⟩ :: tail.2)

/-- The direction an entry contributes, when its value kind is numeric. -/
def dirOfValue : BsonValue → Option Int
  | .int32 n => some n
  | .int64 n => some n
  | .float64 q => some (float64ToInt64 q)
  | .other _ _ => none

/-- The warning an entry contributes, when its value kind is not numeric. -/
def warnOfEntry (e : String × BsonValue) : Option KeyWarning :=
  match e.2 with
  | .other kind _ => some ⟨e.1, kind⟩
  | _ => none

/- ## Database driver (`internal/service/database/database_resource.go`) -/

/-- The sentinel collection name `tfPlaceholderColl`. -/
def tfPlaceholderColl : String := "__tf_placeholder"

/-- `database.ResourceModel`: `name` is required, `keep_placeholder` is
computed with a default, so both are read through their value getters. -/
structure DatabaseModel where
  id : TfString
  name : String
  keepPlaceholder : Bool
deriving DecidableEq, Repr

/-- A `db.RunCommand` issued by the database driver on the sentinel. -/
inductive DbCmd where
  | createCollection (name : String)
  | dropCollection (name : String)
deriving DecidableEq, Repr

/-- Response of a database lifecycle call. -/
structure DbResp where
  errors : List String := []
  commands : List DbCmd := []
  removed : Bool := false
  newState : Option DatabaseModel := none
deriving DecidableEq, Repr

/-- `database.Resource.Create`. `listRes` is the outcome of
`ListDatabaseNames` filtered by the desired name; `_placeholderRes` is the
outcome of the sentinel `create` command, which the source discards
(`_ = db.RunCommand(...).Err()`). -/
def databaseCreate (plan : DatabaseModel) (listRes : StoreResult (List String))
    (_placeholderRes : StoreResult Unit) : DbResp :=
  match listRes with
  | .err _ => { errors := ["List databases failed"] }
  | .ok dbs =>
    if 0 < dbs.length then { errors := ["Database already exists"] }
    else
      { commands := if plan.keepPlaceholder then [.createCollection tfPlaceholderColl] else [],
        newState := some { plan with id := some plan.name } }

/-- `database.Resource.Read`. `listRes` is the outcome of
`ListCollectionNames` on the database. -/
def databaseRead (state : DatabaseModel) (listRes : StoreResult (List String)) : DbResp :=
  match listRes with
  | .err _ => { errors := ["list collections failed"] }
  | .ok names =>
    if names = [] then { removed := true }
    else
      { newState := some { state with
          id := some state.name,
          keepPlaceholder := names.contains tfPlaceholderColl } }

/-- `database.Resource.Update`: toggles the sentinel according to
`keep_placeholder`; the outcome of the toggle command is discarded
(`_ = db.RunCommand(...).Err()`) and the plan is persisted unconditionally. -/
def databaseUpdate (plan : DatabaseModel) (_cmdRes : StoreResult Unit) : DbResp :=
  { commands := [if plan.keepPlaceholder
      then DbCmd.createCollection tfPlaceholderColl
      else DbCmd.dropCollection tfPlaceholderColl],
    newState := some plan }

/- ## Collection driver (`internal/service/collection/collection_resource.go`) -/

/-- `collection.ResourceModel`: `database` and `name` are required; the three
validation attributes are nullable (`Read` writes `types.StringNull()` when
the store reports none). -/
structure CollectionModel where
  id : TfString
  database : String
  name : String
  validator : TfString
  validationLevel : TfString
  validationAction : TfString
deriving DecidableEq, Repr

/-- The result of `collection.Options.Lookup(key)` classified the way the
source checks it: an embedded document, a string, or anything else
(including a missing key, whose zero `RawValue` matches no type test). -/
inductive BsonOptValue where
  | embeddedDocument (doc : BsonDoc)
  | string (s : String)
  | otherVal
deriving Repr

/-- `mongo.CollectionSpecification`: the name plus the raw options document,
read through typed lookups. -/
structure CollectionSpecification where
  name : String
  options : Option (List (String × BsonOptValue))

/-- One field appended to the `collMod` command document. -/
inductive CollModField where
  | validatorEmpty
  | validatorRaw (raw : String)
  | validationLevel (v : String)
  | validationAction (v : String)
deriving DecidableEq, Repr

/-- A `collMod` command: the target collection and the appended fields, in
the order the source appends them. -/
structure CollModCmd where
  collection : String
  fields : List CollModField
deriving DecidableEq, Repr

/-- Response of a collection lifecycle call. -/
structure CollResp where
  errors : List String := []
  warnings : List String := []
  collModCommands : List CollModCmd := []
  removed : Bool := false
  newState : Option CollectionModel := none

/-- `collection.Resource.Read`. `listRes` is the outcome of
`ListCollectionSpecifications` filtered by the exact name; `marshal` is
`bson.MarshalExtJSON` on the validator document. A `nil` or not-length-one
list is an error (`"Collection not found"`), not a state removal. -/
def collectionRead (state : CollectionModel)
    (listRes : StoreResult (List CollectionSpecification))
    (marshal : BsonDoc → StoreResult String) : CollResp :=
  match listRes with
  | .err _ => { errors := ["Error reading collection"] }
  | .ok collections =>
    match collections with
    | [collection] =>
      let decoded : CollectionModel × List String :=
        match collection.options with
        | some opts =>
          let vdec : TfString × List String :=
            match opts.lookup "validator" with
            | some (.embeddedDocument doc) =>
              match marshal doc with
              | .ok s => (some s, [])
              | .err _ => (state.validator, ["Failed to encode validator"])
            | _ => (none, [])
          let lvl : TfString :=
            match opts.lookup "validationLevel" with
            | some (.string s) => some s
            | _ => none
          let act : TfString :=
            match opts.lookup "validationAction" with
            | some (.string s) => some s
            | _ => none
          ({ state with validator := vdec.1, validationLevel := lvl, validationAction := act },
           vdec.2)
        | none =>
          ({ state with validator := none, validationLevel := none, validationAction := none },
           [])
      { warnings := decoded.2,
        newState := some { decoded.1 with id := some (state.database ++ "/" ++ state.name) } }
    | _ => { errors := ["Collection not found"] }

/-- The `collMod` fields accumulated by `collection.Resource.Update`, in
source order: validator (empty document when cleared, parsed extended JSON
otherwise), then validationLevel, then validationAction — each only when the
planned `ValueString()` differs from the recorded one. `parse` is
`bson.UnmarshalExtJSON` on the planned validator text. -/
def collModFieldsOf (plan state : CollectionModel)
    (parse : String → StoreResult String) : StoreResult (List CollModField) :=
  let base : StoreResult (List CollModField) :=
    if tfValueString plan.validator ≠ tfValueString state.validator then
      if tfValueString plan.validator = "" then .ok [.validatorEmpty]
      else
        match parse (tfValueString plan.validator) with
        | .err e => .err e
        | .ok raw => .ok [.validatorRaw raw]
    else .ok []
  match base with
  | .err e => .err e
  | .ok fs =>
    let fs :=
      if tfValueString plan.validationLevel ≠ tfValueString state.validationLevel then
        fs ++ [.validationLevel (tfValueString plan.validationLevel)]
      else fs
    let fs :=
      if tfValueString plan.validationAction ≠ tfValueString state.validationAction then
        fs ++ [.validationAction (tfValueString plan.validationAction)]
      else fs
    .ok fs

/-- `collection.Resource.Update`: builds the `collMod` document and runs it
only when some field besides the collection name was appended
(`len(cmd) > 1`); `runRes` is the outcome of `db.RunCommand`. -/
def collectionUpdate (plan state : CollectionModel)
    (parse : String → StoreResult String) (runRes : StoreResult Unit) : CollResp :=
  match collModFieldsOf plan state parse with
  | .err _ => { errors := ["invalid validator JSON"] }
  | .ok fields =>
    if fields = [] then { newState := some plan }
    else
      match runRes with
      | .err _ =>
        { errors := ["collMod failed"],
          collModCommands := [⟨plan.name, fields⟩] }
      | .ok _ =>
        { collModCommands := [⟨plan.name, fields⟩],
          newState := some plan }

/- ## Index driver (`internal/service/index/index_resource.go`, the variant
with `sparse` support and the list-before-create existence check) -/

/-- `index.ResourceModel`. `database`/`collection`/`name` and the key
entries are required attributes; `unique`/`sparse`/`background` are nullable
bools read through `ValueBoolPointer()`; `ttl` is a nullable int32;
`partial_filter_expression` is read through `ValueString()`. -/
structure IndexModel where
  id : TfString
  database : String
  collection : String
  name : String
  unique : Option Bool
  sparse : Option Bool
  ttl : Option Int
  partialFilter : String
  background : Option Bool
  keys : List IndexKeyModel
deriving DecidableEq, Repr

/-- `mongo.IndexSpecification`, with the raw `KeysDocument` carried as the
outcome of `bson.Unmarshal` on its bytes. -/
structure IndexSpec where
  name : String
  unique : Option Bool
  sparse : Option Bool
  expireAfterSeconds : Option Int
  keysDocument : StoreResult BsonDoc

/-- The `mongo.IndexModel` handed to `CreateOne`. -/
structure CreateIndexCmd where
  keys : List (String × Int)
  unique : Option Bool
  sparse : Option Bool
  expireAfterSeconds : Option Int
  name : Option String
  background : Option Bool
  partialFilterExpression : Option String
deriving DecidableEq, Repr

/-- Response of an index lifecycle call. -/
structure IndexResp where
  errors : List String := []
  warnings : List KeyWarning := []
  createCommands : List CreateIndexCmd := []
  dropCommands : List String := []
  removed : Bool := false
  newState : Option IndexModel := none

/-- `index.Resource.Create`: lists the existing specifications first and
fails with "Index already exists" before building anything when the name is
taken; otherwise builds the index model (parsing the partial filter text
through `parse` when non-empty) and issues `CreateOne`, whose confirmed name
(`createRes`) is used for the identity. -/
def indexCreate (plan : IndexModel) (listRes : StoreResult (List IndexSpec))
    (parse : String → StoreResult String) (createRes : StoreResult String) : IndexResp :=
  match listRes with
  | .err _ => { errors := ["List indexes failed"] }
  | .ok specifications =>
    if specifications.any (fun s => s.name == plan.name) then
      { errors := ["Index already exists"] }
    else
      let keys := plan.keys.map (fun k => (k.field, k.order))
      let pfe : StoreResult (Option String) :=
        if plan.partialFilter ≠ "" then
          match parse plan.partialFilter with
          | .err e => .err e
          | .ok raw => .ok (some raw)
        else .ok none
      match pfe with
      | .err _ => { errors := ["invalid partial_filter_expression JSON"] }
      | .ok pf =>
        let cmd : CreateIndexCmd :=
          { keys := keys,
            unique := plan.unique,
            sparse := plan.sparse,
            expireAfterSeconds := plan.ttl,
            name := some plan.name,
            background := plan.background,
            partialFilterExpression := pf }
        match createRes with
        | .err _ => { errors := ["create index failed"], createCommands := [cmd] }
        | .ok confirmedName =>
          { createCommands := [cmd],
            newState := some { plan with
              id := some (plan.database ++ "/" ++ plan.collection ++ "/" ++ confirmedName) } }

/-- `index.Resource.Read`: on a successful listing, calls `RemoveResource`
when no specification carries the recorded name, then — with no early return
— searches again and adds an "Index not found" error when the search comes
up empty; when found, decodes flags, ttl and the keys document. -/
def indexRead (state : IndexModel) (listRes : StoreResult (List IndexSpec)) : IndexResp :=
  match listRes with
  | .err _ => { errors := ["Failed to list index"] }
  | .ok indexes =>
    let removedFlag := !(indexes.any (fun i => i.name == state.name))
    match indexes.find? (fun i => i.name == state.name) with
    | none => { removed := removedFlag, errors := ["Index not found"] }
    | some index =>
      match index.keysDocument with
      | .err _ => { removed := removedFlag, errors := ["Failed to decode index keys"] }
      | .ok keysDoc =>
        let dec := decodeKeyOrder keysDoc
        { removed := removedFlag,
          warnings := dec.2,
          newState := some { state with
            unique := index.unique,
            sparse := index.sparse,
            ttl := index.expireAfterSeconds,
            keys := dec.1,
            id := some (state.database ++ "/" ++ state.collection ++ "/" ++ state.name) } }

/-- `index.Resource.Update`: every meaningful change carries ForceNew
semantics, so the method only persists the plan. -/
def indexUpdate (plan : IndexModel) : IndexResp :=
  { newState := some plan }

/-- Whether a `collMod` field is one of the two validator directives. -/
def CollModField.isValidatorDirective : CollModField → Prop
  | .validatorEmpty => True
  | .validatorRaw _ => True
  | _ => False

/-- Whether a `collMod` field is a validationLevel directive. -/
def CollModField.isLevelDirective : CollModField → Prop
  | .validationLevel _ => True
  | _ => False

/-- Whether a `collMod` field is a validationAction directive. -/
def CollModField.isActionDirective : CollModField → Prop
  | .validationAction _ => True
  | _ => False

/- ## Helper lemmas: identity codec -/

/-- A trim-invariant string: no surrounding Go whitespace. -/
def trimInvariant (s : Str) : Prop := trimLeft s = s ∧ trimRight s = s

instance (s : Str) : Decidable (trimInvariant s) := by
  unfold trimInvariant; infer_instance

theorem breakAtSep_eq_none {sep : Char} {s : Str} (h : sep ∉ s) :
    breakAtSep sep s = none := by
  induction s with
  | nil => rfl
  | cons c cs ih =>
    simp only [List.mem_cons, not_or] at h
    simp [breakAtSep, Ne.symm h.1, ih h.2]

theorem breakAtSep_append {sep : Char} {p : Str} (q : Str) (h : sep ∉ p) :
    breakAtSep sep (p ++ sep :: q) = some (p, q) := by
  induction p with
  | nil => simp [breakAtSep]
  | cons c cs ih =>
    simp only [List.mem_cons, not_or] at h
    simp [breakAtSep, Ne.symm h.1, ih h.2]

theorem breakAtSep_some {sep : Char} {s p q : Str}
    (h : breakAtSep sep s = some (p, q)) : s = p ++ sep :: q ∧ sep ∉ p := by
  induction s generalizing p q with
  | nil => simp [breakAtSep] at h
  | cons c cs ih =>
    by_cases hc : c = sep
    · simp only [breakAtSep, if_pos hc, Option.some.injEq, Prod.mk.injEq] at h
      obtain ⟨rfl, rfl⟩ := h
      simp [hc]
    · simp only [breakAtSep, if_neg hc, Option.map_eq_some'] at h
      obtain ⟨⟨p', q'⟩, hbr, hpq⟩ := h
      obtain ⟨hs, hnot⟩ := ih hbr
      cases hpq
      refine ⟨by simp [hs], ?_⟩
      simp only [List.mem_cons, not_or]
      exact ⟨fun h1 => hc h1.symm, hnot⟩

theorem splitN_two_eq {s a b : Str} :
    splitN '/' 2 s = [a, b] ↔ s = a ++ '/' :: b ∧ '/' ∉ a := by
  constructor
  · intro h
    unfold splitN at h
    rcases hbr : breakAtSep '/' s with _ | ⟨p, q⟩ <;> rw [hbr] at h
    · simp at h
    · simp [splitN] at h
      obtain ⟨hp, hq⟩ := h
      obtain ⟨hs, hnot⟩ := breakAtSep_some hbr
      exact ⟨by rw [hs, hp, hq], hp ▸ hnot⟩
  · rintro ⟨hs, hnot⟩
    subst hs
    unfold splitN
    rw [breakAtSep_append b hnot]
    rfl

theorem splitN_three_eq {s a b c : Str} :
    splitN '/' 3 s = [a, b, c] ↔
      s = a ++ '/' :: (b ++ '/' :: c) ∧ '/' ∉ a ∧ '/' ∉ b := by
  constructor
  · intro h
    unfold splitN at h
    rcases hbr : breakAtSep '/' s with _ | ⟨p, q⟩ <;> rw [hbr] at h
    · simp at h
    · simp only [List.cons.injEq] at h
      obtain ⟨hp, hq⟩ := h
      have h2 : splitN '/' 2 q = [b, c] := hq
      obtain ⟨hqeq, hbnot⟩ := splitN_two_eq.mp h2
      obtain ⟨hs, hnot⟩ := breakAtSep_some hbr
      exact ⟨by rw [hs, hp, hqeq], hp ▸ hnot, hbnot⟩
  · rintro ⟨hs, hanot, hbnot⟩
    subst hs
    unfold splitN
    rw [breakAtSep_append (b ++ '/' :: c) hanot]
    have h2 : splitN '/' (1 + 1) (b ++ '/' :: c) = [b, c] :=
      splitN_two_eq.mpr ⟨rfl, hbnot⟩
    show a :: splitN '/' (1 + 1) (b ++ '/' :: c) = [a, b, c]
    rw [h2]

theorem dropWhile_eq_self_head {p : Char → Bool} {a : Char} {l : Str}
    (h : (a :: l).dropWhile p = a :: l) : p a = false := by
  have := List.dropWhile_eq_self_iff.mp h (by simp)
  simpa using this

theorem trimLeft_append {p r : Str} (hp : trimLeft p = p) (hne : p ≠ []) :
    trimLeft (p ++ r) = p ++ r := by
  cases p with
  | nil => exact absurd rfl hne
  | cons a l =>
    have ha : isGoSpace a = false := dropWhile_eq_self_head hp
    have : ¬(isGoSpace a = true) := by simp [ha]
    simp only [trimLeft, List.cons_append]
    rw [List.dropWhile_cons_of_neg this]

theorem trimRight_append {q r : Str} (hq : trimRight q = q) (hne : q ≠ []) :
    trimRight (r ++ q) = r ++ q := by
  have hq' : q.reverse.dropWhile isGoSpace = q.reverse := by
    have := congrArg List.reverse hq
    simpa [trimRight] using this
  have hne' : q.reverse ≠ [] := by simpa using hne
  have : trimLeft (q.reverse ++ r.reverse) = q.reverse ++ r.reverse :=
    trimLeft_append hq' hne'
  simp only [trimRight, List.reverse_append]
  rw [show (q.reverse ++ r.reverse).dropWhile isGoSpace =
        trimLeft (q.reverse ++ r.reverse) from rfl, this]
  simp

theorem trimSpace_of_invariant {s : Str} (h : trimInvariant s) :
    trimSpace s = s := by
  obtain ⟨hl, hr⟩ := h
  rw [trimSpace, hl, hr]

theorem trimSpace_append_invariant {p q : Str} (mid : Str)
    (hp : trimLeft p = p) (hq : trimRight q = q) (hpne : p ≠ []) (hqne : q ≠ []) :
    trimSpace (p ++ mid ++ q) = p ++ mid ++ q := by
  have h1 : trimLeft (p ++ mid ++ q) = p ++ mid ++ q := by
    have := trimLeft_append (p := p) (r := mid ++ q) hp hpne
    simpa [List.append_assoc] using this
  have h2 : trimRight (p ++ mid ++ q) = p ++ mid ++ q :=
    trimRight_append (q := q) (r := p ++ mid) hq hqne
  rw [trimSpace, h1, h2]

theorem decodeDatabaseId_none_iff {s : Str} :
    decodeDatabaseId s = none ↔ trimSpace s = [] := by
  by_cases he : trimSpace s = [] <;> simp [decodeDatabaseId, he]

theorem decodeDatabaseId_some_iff {s a : Str} :
    decodeDatabaseId s = some a ↔ trimSpace s = a ∧ a ≠ [] := by
  by_cases he : trimSpace s = []
  · simp only [decodeDatabaseId, if_pos he]
    constructor
    · intro h; cases h
    · rintro ⟨rfl, hne⟩; exact absurd he hne
  · simp only [decodeDatabaseId, if_neg he, Option.some.injEq]
    constructor
    · intro h; exact ⟨h, h ▸ he⟩
    · rintro ⟨h, _⟩; exact h

theorem decodeCollectionId_some_iff {s a b : Str} :
    decodeCollectionId s = some (a, b) ↔
      trimSpace s = a ++ '/' :: b ∧ a ≠ [] ∧ b ≠ [] ∧ '/' ∉ a := by
  constructor
  · intro h
    unfold decodeCollectionId at h
    by_cases he : trimSpace s = []
    · rw [if_pos he] at h; cases h
    · rw [if_neg he] at h
      rcases hsp : splitN '/' 2 (trimSpace s) with _ | ⟨x, _ | ⟨y, _ | ⟨z, tl⟩⟩⟩ <;>
        rw [hsp] at h <;> simp only [shapeTwo] at h
      · cases h
      · cases h
      · by_cases hxy : x = [] ∨ y = []
        · rw [if_pos hxy] at h; cases h
        · rw [if_neg hxy] at h
          obtain ⟨rfl, rfl⟩ : x = a ∧ y = b := by simpa using h
          push_neg at hxy
          obtain ⟨hst, hnot⟩ := splitN_two_eq.mp hsp
          exact ⟨hst, hxy.1, hxy.2, hnot⟩
      · cases h
  · rintro ⟨ht, ha, hb, hnot⟩
    have he : trimSpace s ≠ [] := by rw [ht]; simp
    have hsp : splitN '/' 2 (trimSpace s) = [a, b] := by
      rw [ht]; exact splitN_two_eq.mpr ⟨rfl, hnot⟩
    unfold decodeCollectionId
    rw [if_neg he, hsp]
    simp only [shapeTwo]
    rw [if_neg (by simp [ha, hb])]

theorem decodeIndexId_some_iff {s a b c : Str} :
    decodeIndexId s = some (a, b, c) ↔
      trimSpace s = a ++ '/' :: (b ++ '/' :: c) ∧
        a ≠ [] ∧ b ≠ [] ∧ c ≠ [] ∧ '/' ∉ a ∧ '/' ∉ b := by
  constructor
  · intro h
    unfold decodeIndexId at h
    by_cases he : trimSpace s = []
    · rw [if_pos he] at h; cases h
    · rw [if_neg he] at h
      rcases hsp : splitN '/' 3 (trimSpace s) with _ | ⟨x, _ | ⟨y, _ | ⟨z, _ | ⟨w, tl⟩⟩⟩⟩ <;>
        rw [hsp] at h <;> simp only [shapeThree] at h
      · cases h
      · cases h
      · cases h
      · by_cases hxyz : x = [] ∨ y = [] ∨ z = []
        · rw [if_pos hxyz] at h; cases h
        · rw [if_neg hxyz] at h
          obtain ⟨rfl, rfl, rfl⟩ : x = a ∧ y = b ∧ z = c := by simpa using h
          push_neg at hxyz
          obtain ⟨hst, hnota, hnotb⟩ := splitN_three_eq.mp hsp
          exact ⟨hst, hxyz.1, hxyz.2.1, hxyz.2.2, hnota, hnotb⟩
      · cases h
  · rintro ⟨ht, ha, hb, hc, hnota, hnotb⟩
    have he : trimSpace s ≠ [] := by rw [ht]; simp
    have hsp : splitN '/' 3 (trimSpace s) = [a, b, c] := by
      rw [ht]; exact splitN_three_eq.mpr ⟨rfl, hnota, hnotb⟩
    unfold decodeIndexId
    rw [if_neg he, hsp]
    simp only [shapeThree]
    rw [if_neg (by simp [ha, hb, hc])]

/- ## Helper lemmas: collection update -/

theorem collectionUpdate_commands (plan state : CollectionModel)
    (parse : String → StoreResult String) (runRes : StoreResult Unit) :
    (collectionUpdate plan state parse runRes).collModCommands = [] ∨
      ∃ fs, collModFieldsOf plan state parse = .ok fs ∧ fs ≠ [] ∧
        (collectionUpdate plan state parse runRes).collModCommands = [⟨plan.name, fs⟩] := by
  rcases h : collModFieldsOf plan state parse with fs | msg
  · by_cases hfs : fs = []
    · left; simp [collectionUpdate, h, hfs]
    · right
      refine ⟨fs, rfl, hfs, ?_⟩
      cases runRes <;> simp [collectionUpdate, h, hfs]
  · left; simp [collectionUpdate, h]

theorem collModFieldsOf_ok (plan state : CollectionModel)
    (parse : String → StoreResult String) (fs : List CollModField)
    (h : collModFieldsOf plan state parse = .ok fs) :
    ((∃ f ∈ fs, f.isValidatorDirective) ↔
      tfValueString plan.validator ≠ tfValueString state.validator) ∧
    ((∃ f ∈ fs, f.isLevelDirective) ↔
      tfValueString plan.validationLevel ≠ tfValueString state.validationLevel) ∧
    ((∃ f ∈ fs, f.isActionDirective) ↔
      tfValueString plan.validationAction ≠ tfValueString state.validationAction) ∧
    (tfValueString plan.validator ≠ tfValueString state.validator →
      tfValueString plan.validator = "" → CollModField.validatorEmpty ∈ fs) ∧
    (tfValueString plan.validator = tfValueString state.validator →
      tfValueString plan.validationLevel = tfValueString state.validationLevel →
      tfValueString plan.validationAction = tfValueString state.validationAction →
      fs = []) := by
  rcases hp : parse (tfValueString plan.validator) with raw | msg <;>
    by_cases hv : tfValueString plan.validator = tfValueString state.validator <;>
    by_cases hve : tfValueString plan.validator = "" <;>
    by_cases hl : tfValueString plan.validationLevel = tfValueString state.validationLevel <;>
    by_cases ha : tfValueString plan.validationAction = tfValueString state.validationAction <;>
    simp_all [collModFieldsOf, CollModField.isValidatorDirective,
      CollModField.isLevelDirective, CollModField.isActionDirective] <;>
    subst h <;>
    simp [CollModField.isValidatorDirective, CollModField.isLevelDirective,
      CollModField.isActionDirective]

/- ## Claim theorems -/

/-- C1 (amended): absence during `Read` is handled differently per driver.
The database driver removes the resource from recorded state and reports no
error when the store lists zero collections; the collection driver reports a
"Collection not found" error and does not remove the resource when zero
specifications match the exact name; the index driver removes the resource
when no specification carries the recorded name but, falling through after
`RemoveResource`, also reports an "Index not found" error. -/
theorem readAbsent_per_driver (dbState : DatabaseModel) (collState : CollectionModel)
    (idxState : IndexModel) (marshal : BsonDoc → StoreResult String)
    (specs : List IndexSpec) (habs : ∀ s ∈ specs, s.name ≠ idxState.name) :
    ((databaseRead dbState (.ok [])).removed = true ∧
      (databaseRead dbState (.ok [])).errors = [] ∧
      (databaseRead dbState (.ok [])).newState = none) ∧
    ((collectionRead collState (.ok []) marshal).removed = false ∧
      (collectionRead collState (.ok []) marshal).errors = ["Collection not found"]) ∧
    ((indexRead idxState (.ok specs)).removed = true ∧
      (indexRead idxState (.ok specs)).errors = ["Index not found"]) := by
  refine ⟨⟨rfl, rfl, rfl⟩, ⟨rfl, rfl⟩, ?_⟩
  have hany : specs.any (fun i => i.name == idxState.name) = false := by
    simp only [List.any_eq_false]
    intro s hs
    simpa using habs s hs
  have hfind : specs.find? (fun i => i.name == idxState.name) = none := by
    rw [List.find?_eq_none]
    intro s hs
    simpa using habs s hs
  simp [indexRead, hany, hfind]

/-- C1 witness: concrete instantiation with an empty store. -/
theorem readAbsent_per_driver_witness :
    (databaseRead ⟨none, "db1", true⟩ (.ok [])).removed = true ∧
    (indexRead ⟨none, "db1", "c1", "i1", none, none, none, "", some true, []⟩
      (.ok [])).errors = ["Index not found"] :=
  ⟨(readAbsent_per_driver ⟨none, "db1", true⟩ ⟨none, "db1", "c1", none, none, none⟩
      ⟨none, "db1", "c1", "i1", none, none, none, "", some true, []⟩
      (fun _ => .ok "") [] (by simp)).1.1,
   (readAbsent_per_driver ⟨none, "db1", true⟩ ⟨none, "db1", "c1", none, none, none⟩
      ⟨none, "db1", "c1", "i1", none, none, none, "", some true, []⟩
      (fun _ => .ok "") [] (by simp)).2.2.2⟩

/-- C1 counterexample: the collection driver, on a read that finds zero
matching specifications, does not remove the resource and does report an
error, contradicting the claim that every driver removes silently. -/
theorem readAbsent_collection_counterexample :
    (collectionRead ⟨none, "db1", "c1", none, none, none⟩ (.ok [])
        (fun _ => .ok "")).removed = false ∧
    (collectionRead ⟨none, "db1", "c1", none, none, none⟩ (.ok [])
        (fun _ => .ok "")).errors ≠ [] :=
  ⟨rfl, by simp [collectionRead]⟩

/-- C2: decoding a raw index keys document yields, in input order, one
(field, direction) entry for every int32/int64/float64 value (coerced to a
signed 64-bit direction) and one warning naming the field and the
encountered kind for every other value, never failing. -/
theorem decodeKeyOrder_spec (d : BsonDoc) :
    (decodeKeyOrder d).1 =
      d.filterMap (fun e => (dirOfValue e.2).map (fun o => ⟨e.1, o⟩)) ∧
    (decodeKeyOrder d).2 = d.filterMap warnOfEntry := by
  induction d with
  | nil => exact ⟨rfl, rfl⟩
  | cons e rest ih =>
    obtain ⟨f, v⟩ := e
    cases v <;>
      simp [decodeKeyOrder, dirOfValue, warnOfEntry, List.filterMap_cons, ih.1, ih.2]

/-- C3 (amended): import identity decoding first trims surrounding
whitespace and fails exactly when the trimmed input is empty, when splitting
produces fewer segments than the shape requires, or when one of the
resulting segments is empty; extra '/' separators are folded into the final
segment (and accepted), and the database shape performs no segment check
beyond non-emptiness. -/
theorem decodeIdentity_characterization (s a b c : Str) :
    (decodeDatabaseId s = none ↔ trimSpace s = []) ∧
    (decodeDatabaseId s = some a ↔ trimSpace s = a ∧ a ≠ []) ∧
    (decodeCollectionId s = some (a, b) ↔
      trimSpace s = a ++ '/' :: b ∧ a ≠ [] ∧ b ≠ [] ∧ '/' ∉ a) ∧
    (decodeIndexId s = some (a, b, c) ↔
      trimSpace s = a ++ '/' :: (b ++ '/' :: c) ∧
        a ≠ [] ∧ b ≠ [] ∧ c ≠ [] ∧ '/' ∉ a ∧ '/' ∉ b) :=
  ⟨decodeDatabaseId_none_iff, decodeDatabaseId_some_iff,
   decodeCollectionId_some_iff, decodeIndexId_some_iff⟩

/-- C3 witness: the characterization applied at concrete identities. -/
theorem decodeIdentity_characterization_witness :
    decodeIndexId ['d', '/', 'c', '/', 'n'] = some (['d'], ['c'], ['n']) :=
  (decodeIdentity_characterization ['d', '/', 'c', '/', 'n'] ['d'] ['c'] ['n']).2.2.2.mpr
    ⟨by decide, by decide, by decide, by decide, by decide, by decide⟩

/-- C3 counterexample: an index identity with three '/' separators is not
rejected; the surplus separator is folded into the index-name segment. -/
theorem decodeIndexId_extra_separators_counterexample :
    decodeIndexId ['a', '/', 'b', '/', 'c', '/', 'd'] =
      some (['a'], ['b'], ['c', '/', 'd']) := by
  decide

/-- C4 (amended): for non-empty parts without '/' and without leading or
trailing whitespace, decoding the encoded identity returns exactly the
original parts, for all three identity shapes. -/
theorem encode_decode_roundtrip (d c n : Str)
    (hd : d ≠ []) (hc : c ≠ []) (hn : n ≠ [])
    (nd : '/' ∉ d) (nc : '/' ∉ c) (nn : '/' ∉ n)
    (td : trimInvariant d) (tc : trimInvariant c) (tn : trimInvariant n) :
    decodeDatabaseId (encodeDatabaseId n) = some n ∧
    decodeCollectionId (encodeCollectionId d n) = some (d, n) ∧
    decodeIndexId (encodeIndexId d c n) = some (d, c, n) := by
  refine ⟨?_, ?_, ?_⟩
  · have ht : trimSpace n = n := trimSpace_of_invariant tn
    exact decodeDatabaseId_some_iff.mpr ⟨ht, hn⟩
  · have ht : trimSpace (encodeCollectionId d n) = encodeCollectionId d n := by
      have := trimSpace_append_invariant (p := d) (q := n) ['/'] td.1 tn.2 hd hn
      simpa [encodeCollectionId, List.append_assoc] using this
    exact decodeCollectionId_some_iff.mpr ⟨by rw [ht, encodeCollectionId], hd, hn, nd⟩
  · have ht : trimSpace (encodeIndexId d c n) = encodeIndexId d c n := by
      have := trimSpace_append_invariant (p := d) (q := n) ('/' :: (c ++ ['/'])) td.1 tn.2 hd hn
      simpa [encodeIndexId, List.append_assoc] using this
    exact decodeIndexId_some_iff.mpr ⟨by rw [ht, encodeIndexId], hd, hc, hn, nd, nc⟩

/-- C4 witness: the round-trip applied at concrete whitespace-free parts. -/
theorem encode_decode_roundtrip_witness :
    decodeIndexId (encodeIndexId ['d', 'b'] ['c'] ['n']) = some (['d', 'b'], ['c'], ['n']) :=
  (encode_decode_roundtrip ['d', 'b'] ['c'] ['n']
    (by decide) (by decide) (by decide) (by decide) (by decide) (by decide)
    (by decide) (by decide) (by decide)).2.2

/-- C4 counterexample: a part that is non-empty and free of '/' but starts
with a space does not round-trip — the decoder trims it away. -/
theorem encode_decode_roundtrip_counterexample :
    ([' ', 'x'] ≠ ([] : Str) ∧ '/' ∉ [' ', 'x']) ∧
    decodeDatabaseId (encodeDatabaseId [' ', 'x']) ≠ some [' ', 'x'] := by
  refine ⟨⟨by decide, by decide⟩, by decide⟩

/-- C5: a collection update issues at most one `collMod` command; its fields
are exactly the validator/validationLevel/validationAction entries whose
planned `ValueString` differs from the recorded one; clearing the validator
(planned value empty, recorded one not) sends the explicit empty-validator
directive; and when none of the three fields changed no command is issued. -/
theorem collectionUpdate_changed_only (plan state : CollectionModel)
    (parse : String → StoreResult String) (runRes : StoreResult Unit) :
    (collectionUpdate plan state parse runRes).collModCommands.length ≤ 1 ∧
    (∀ cmd ∈ (collectionUpdate plan state parse runRes).collModCommands,
      ((∃ f ∈ cmd.fields, f.isValidatorDirective) ↔
        tfValueString plan.validator ≠ tfValueString state.validator) ∧
      ((∃ f ∈ cmd.fields, f.isLevelDirective) ↔
        tfValueString plan.validationLevel ≠ tfValueString state.validationLevel) ∧
      ((∃ f ∈ cmd.fields, f.isActionDirective) ↔
        tfValueString plan.validationAction ≠ tfValueString state.validationAction) ∧
      (tfValueString plan.validator ≠ tfValueString state.validator →
        tfValueString plan.validator = "" → CollModField.validatorEmpty ∈ cmd.fields)) ∧
    (tfValueString plan.validator = tfValueString state.validator →
      tfValueString plan.validationLevel = tfValueString state.validationLevel →
      tfValueString plan.validationAction = tfValueString state.validationAction →
      (collectionUpdate plan state parse runRes).collModCommands = []) := by
  obtain hc | ⟨fs, hok, hne, hc⟩ := collectionUpdate_commands plan state parse runRes
  · exact ⟨by simp [hc], by simp [hc], fun _ _ _ => hc⟩
  · obtain ⟨h1, h2, h3, h4, h5⟩ := collModFieldsOf_ok plan state parse fs hok
    refine ⟨by simp [hc], ?_, ?_⟩
    · intro cmd hcmd
      rw [hc] at hcmd
      obtain rfl := List.mem_singleton.mp hcmd
      exact ⟨h1, h2, h3, h4⟩
    · intro hveq hleq haeq
      exact absurd (h5 hveq hleq haeq) hne

/-- C5 witness: with nothing changed, no command is issued. -/
theorem collectionUpdate_changed_only_witness :
    (collectionUpdate ⟨none, "db", "c", some "v", some "strict", some "error"⟩
        ⟨none, "db", "c", some "v", some "strict", some "error"⟩
        (fun s => .ok s) (.ok ())).collModCommands = [] :=
  (collectionUpdate_changed_only ⟨none, "db", "c", some "v", some "strict", some "error"⟩
      ⟨none, "db", "c", some "v", some "strict", some "error"⟩
      (fun s => .ok s) (.ok ())).2.2 rfl rfl rfl

/-- C6: index creation lists the existing specifications first and fails
with "Index already exists" — issuing no create command — whenever one
carries the desired name; a create command is only ever issued when no such
specification exists, and on success the identity is
`database/collection/<name confirmed by the store>`. -/
theorem indexCreate_existence_check (plan : IndexModel) (specs : List IndexSpec)
    (parse : String → StoreResult String) (createRes : StoreResult String) :
    ((∃ s ∈ specs, s.name = plan.name) →
      indexCreate plan (.ok specs) parse createRes =
        { errors := ["Index already exists"] }) ∧
    ((indexCreate plan (.ok specs) parse createRes).createCommands ≠ [] →
      ¬ ∃ s ∈ specs, s.name = plan.name) ∧
    (∀ confirmedName st, createRes = .ok confirmedName →
      (indexCreate plan (.ok specs) parse createRes).newState = some st →
      st.id = some (plan.database ++ "/" ++ plan.collection ++ "/" ++ confirmedName)) := by
  by_cases hex : ∃ s ∈ specs, s.name = plan.name
  · have hany : specs.any (fun s => s.name == plan.name) = true := by
      obtain ⟨s, hs, he⟩ := hex
      simp only [List.any_eq_true]
      exact ⟨s, hs, by simp [he]⟩
    have hr : indexCreate plan (.ok specs) parse createRes =
        { errors := ["Index already exists"] } := by
      simp [indexCreate, hany]
    refine ⟨fun _ => hr, fun hne => absurd ?_ hne, fun nm st hres hstate => ?_⟩
    · rw [hr]
    · rw [hr] at hstate
      cases hstate
  · have hany : specs.any (fun s => s.name == plan.name) = false := by
      simp only [List.any_eq_false]
      intro s hs
      simp only [beq_iff_eq]
      exact fun he => hex ⟨s, hs, he⟩
    refine ⟨fun h => absurd h hex, fun _ => hex, ?_⟩
    intro nm st hres hstate
    subst hres
    have hns : (indexCreate plan (.ok specs) parse (.ok nm)).newState = none ∨
        (indexCreate plan (.ok specs) parse (.ok nm)).newState =
          some { plan with
            id := some (plan.database ++ "/" ++ plan.collection ++ "/" ++ nm) } := by
      by_cases hp : plan.partialFilter = ""
      · right; simp [indexCreate, hany, hp]
      · rcases hparse : parse plan.partialFilter with raw | msg
        · right; simp [indexCreate, hany, hp, hparse]
        · left; simp [indexCreate, hany, hp, hparse]
    rcases hns with h | h
    · rw [h] at hstate; cases hstate
    · rw [h] at hstate
      obtain rfl := Option.some.inj hstate
      rfl

/-- C6 witness: a conflicting specification makes creation fail without a
create command. -/
theorem indexCreate_existence_check_witness :
    indexCreate ⟨none, "db", "coll", "idx", none, none, none, "", some true, [⟨"email", 1⟩]⟩
        (.ok [⟨"idx", none, none, none, .ok []⟩]) (fun s => .ok s) (.ok "idx") =
      { errors := ["Index already exists"] } :=
  (indexCreate_existence_check
      ⟨none, "db", "coll", "idx", none, none, none, "", some true, [⟨"email", 1⟩]⟩
      [⟨"idx", none, none, none, .ok []⟩] (fun s => .ok s) (.ok "idx")).1
    ⟨⟨"idx", none, none, none, .ok []⟩, by simp, rfl⟩

/-- C7: database creation fails with "Database already exists" — issuing no
further command — when the filtered database listing is non-empty; otherwise
it issues a sentinel create exactly when `keepPlaceholder` is set, returns
identity = name, and its outcome is independent of the sentinel command's
result. -/
theorem databaseCreate_conflict_and_placeholder (plan : DatabaseModel)
    (dbs : List String) (res res' : StoreResult Unit) :
    (dbs ≠ [] →
      databaseCreate plan (.ok dbs) res = { errors := ["Database already exists"] }) ∧
    (dbs = [] →
      (databaseCreate plan (.ok dbs) res).commands =
        (if plan.keepPlaceholder then [DbCmd.createCollection tfPlaceholderColl] else []) ∧
      (databaseCreate plan (.ok dbs) res).newState =
        some { plan with id := some plan.name }) ∧
    databaseCreate plan (.ok dbs) res = databaseCreate plan (.ok dbs) res' := by
  refine ⟨?_, ?_, rfl⟩
  · intro h
    have hlen : 0 < dbs.length := List.length_pos.mpr h
    simp [databaseCreate, hlen]
  · intro h
    subst h
    simp [databaseCreate]

/-- C7 witness: concrete conflict and concrete placeholder creation. -/
theorem databaseCreate_conflict_and_placeholder_witness :
    databaseCreate ⟨none, "db1", true⟩ (.ok ["db1"]) (.err "boom") =
      { errors := ["Database already exists"] } ∧
    (databaseCreate ⟨none, "db1", true⟩ (.ok []) (.err "boom")).commands =
      [DbCmd.createCollection tfPlaceholderColl] := by
  refine ⟨(databaseCreate_conflict_and_placeholder ⟨none, "db1", true⟩ ["db1"]
      (.err "boom") (.err "boom")).1 (by simp), ?_⟩
  have := (databaseCreate_conflict_and_placeholder ⟨none, "db1", true⟩ []
      (.err "boom") (.err "boom")).2.1 rfl
  simpa using this.1

/-- C8: the index update operation issues no store command of any kind and
only re-persists the plan as the new recorded state. -/
theorem indexUpdate_no_store_commands (plan : IndexModel) :
    (indexUpdate plan).createCommands = [] ∧
    (indexUpdate plan).dropCommands = [] ∧
    (indexUpdate plan).errors = [] ∧
    (indexUpdate plan).removed = false ∧
    (indexUpdate plan).newState = some plan :=
  ⟨rfl, rfl, rfl, rfl, rfl⟩

/-- C9: the database update discards the sentinel toggle's outcome entirely:
whatever the store answers, no error is reported, the plan is persisted, and
the whole response is independent of that outcome. -/
theorem databaseUpdate_ignores_store_outcome (plan : DatabaseModel)
    (res res' : StoreResult Unit) :
    (databaseUpdate plan res).errors = [] ∧
    (databaseUpdate plan res).newState = some plan ∧
    databaseUpdate plan res = databaseUpdate plan res' :=
  ⟨rfl, rfl, rfl⟩

/-- C10: a float64 key order is truncated toward zero to a signed 64-bit
direction and the entry is kept without any warning, exactly as an integral
float; in particular 1.5 decodes to direction 1 (and -1.5 to -1). -/
theorem decodeKeyOrder_float_truncation (f : String) (q : Rat) (rest : BsonDoc) :
    decodeKeyOrder ((f, BsonValue.float64 q) :: rest) =
      (⟨f, float64ToInt64 q⟩ :: (decodeKeyOrder rest).1, (decodeKeyOrder rest).2) ∧
    float64ToInt64 (3 / 2 : Rat) = 1 ∧ float64ToInt64 (-(3 / 2) : Rat) = -1 := by
  refine ⟨rfl, ?_, ?_⟩
  · rw [float64ToInt64, if_pos (by norm_num)]
    rw [Int.floor_eq_iff] <;> norm_num
  · rw [float64ToInt64, if_neg (by norm_num)]
    rw [Int.ceil_eq_iff] <;> norm_num
